import Mathlib

/-!
Shallow embedding of dizi's sandboxed project-file access layer
(src/internal/tools/filesystem.go): path validation, gitignore pattern
translation, glob-filtered listing, read/write/edit with staleness
tracking, and grep.  Go strings are modelled as `List Char` (rune
sequences); machine timestamps as `Int`; fallible operations as `Except`.
-/

namespace Dizi

/-- Rune-sequence model of a Go string. -/
abbrev Str := List Char

/-- Coerce a Lean string literal into the rune-list model. -/
def strL (s : String) : Str := s.data

/-- Go `strings.HasPrefix s pre`. -/
def strStarts (s pre : Str) : Bool := pre.isPrefixOf s

/-- Go `strings.HasSuffix s suf`. -/
def strEnds (s suf : Str) : Bool := suf.isSuffixOf s

/-- Go `strings.Contains s sub`: `sub` occurs as a contiguous substring of `s`. -/
def strContains : Str → Str → Bool
  | [], sub => sub.isEmpty
  | c :: cs, sub => sub.isPrefixOf (c :: cs) || strContains cs sub

/-- Greedy left-to-right count of non-overlapping occurrences of a
non-empty pattern `pat` in `s`; the loop of Go `strings.Count` (each hit
advances past the whole match).  For `pat = []` this still terminates but
`stringsCount` handles that case separately, as Go does. -/
def countNE (s pat : Str) : Nat :=
  match s with
  | [] => 0
  | c :: cs =>
    if pat.isPrefixOf (c :: cs) then 1 + countNE (cs.drop (pat.length - 1)) pat
    else countNE cs pat
termination_by s.length
decreasing_by
  · simp only [List.length_drop, List.length_cons]; omega
  · simp only [List.length_cons]; omega

/-- Go `strings.Count s substr`: for an empty pattern, 1 + number of runes;
otherwise the number of non-overlapping occurrences. -/
def stringsCount (s substr : Str) : Nat :=
  if substr = [] then s.length + 1 else countNE s substr

/-- Replace the leftmost occurrence of a non-empty `old` in `s` by `new`
(identity when `old` does not occur); the single replacement step of Go
`strings.Replace(s, old, new, 1)`. -/
def replaceFirstNE (s old new : Str) : Str :=
  match s with
  | [] => []
  | c :: cs =>
    if old.isPrefixOf (c :: cs) then new ++ cs.drop (old.length - 1)
    else c :: replaceFirstNE cs old new

/-- Go `strings.Replace(s, old, new, 1)`: unchanged when `old = new`; an
empty `old` inserts `new` before the first rune; otherwise the leftmost
occurrence of `old` is replaced. -/
def stringsReplace1 (s old new : Str) : Str :=
  if old = new then s
  else if old = [] then new ++ s
  else replaceFirstNE s old new

/-- All positions (including overlapping ones) at which `pat` occurs as a
substring of `s`; used to contrast position counts with the
non-overlapping `stringsCount`. -/
def occPositions (s pat : Str) : List Nat :=
  (List.range (s.length + 1)).filter (fun i => pat.isPrefixOf (s.drop i))

/-! ### Path validation (`validatePath`) -/

/-- Split a path into its `/`-separated components. -/
def splitSlash (s : Str) : List Str := s.splitOn '/'

/-- Stack-based processing of path components: drops empty and `.`
components; `..` pops a previous component, is discarded at the root of a
rooted path, and is kept at the head of an unrooted path.  This is the
component-level content of Go `path/filepath.Clean` on Unix paths. -/
def cleanProc (rooted : Bool) : List Str → List Str → List Str
  | acc, [] => acc.reverse
  | acc, comp :: rest =>
    if comp = [] ∨ comp = ['.'] then cleanProc rooted acc rest
    else if comp = ['.', '.'] then
      match acc with
      | [] => if rooted then cleanProc rooted [] rest else cleanProc rooted [['.', '.']] rest
      | top :: acc2 =>
        if top = ['.', '.'] then cleanProc rooted (comp :: top :: acc2) rest
        else cleanProc rooted acc2 rest
    else cleanProc rooted (comp :: acc) rest

/-- Model of Go `path/filepath.Clean` for Unix paths: resolve `.` and `..`
segments, remove redundant separators, return `.` for an empty result. -/
def clean (path : Str) : Str :=
  if path = [] then ['.']
  else
    let rooted := path.head? == some '/'
    let comps := cleanProc rooted [] (splitSlash path)
    let out := List.intercalate ['/'] comps
    if rooted then '/' :: out
    else if out = [] then ['.']
    else out

/-- Go `filepath.IsAbs` on Unix: the path begins with the separator. -/
def isAbs (p : Str) : Bool := p.head? == some '/'

/-- Model of Go `filepath.Abs` with working directory `wd`: an absolute
path is cleaned, a relative one is joined to `wd` and cleaned. -/
def absPath (wd p : Str) : Str := if isAbs p then clean p else clean (wd ++ '/' :: p)

/-- Error raised when a path escapes the sandbox root (`access denied`). -/
inductive PathErr where
  | outsideRoot : PathErr
deriving DecidableEq

/-- `validatePath` (filesystem.go): clean the input, make it and the root
absolute, and require `strings.HasPrefix(absPath+sep, rootAbs+sep)` or
`absPath == rootAbs`; on success the absolute cleaned path is returned. -/
def validatePath (wd root p : Str) : Except PathErr Str :=
  let cleanPath := clean p
  let aPath := absPath wd cleanPath
  let rootAbs := absPath wd root
  if strStarts (aPath ++ ['/']) (rootAbs ++ ['/']) || aPath == rootAbs then .ok aPath
  else .error .outsideRoot

/-! ### Staleness tracking (`checkStale`, `writeProjectFile`, `editProjectFile`) -/

/-- An on-disk file as seen by write/edit: text content and modification
time in integer seconds (`stat.ModTime().Unix()`). -/
structure PFile where
  content : Str
  mtime : Int
deriving DecidableEq

/-- Server state relevant to one validated path: the on-disk file (if any)
and that path's entry in the `readTimestamps` table. -/
structure FsState where
  file : Option PFile
  tracked : Option Int
deriving DecidableEq

/-- Errors of the write/edit paths. -/
inductive FsErr where
  | notFound : FsErr
  | notTracked : FsErr
  | stale : FsErr
  | editNotFound : FsErr
  | editAmbiguous : Nat → FsErr
deriving DecidableEq

/-- `checkStale` (filesystem.go): a missing file is tolerated only when
`allowNotFound`; an untracked path fails; a tracked path fails when the
on-disk modification time is strictly newer than the tracked one. -/
def checkStale (st : FsState) (allowNotFound : Bool) : Except FsErr Unit :=
  match st.file with
  | none => if allowNotFound then .ok () else .error .notFound
  | some f =>
    match st.tracked with
    | none => .error .notTracked
    | some lastRead => if f.mtime > lastRead then .error .stale else .ok ()

/-- `writeProjectFile` on a validated path: staleness gate with the
new-file exemption, then full replace; `now` is the modification time the
written file receives, which is also recorded in the timestamp table. -/
def writeProjectFile (st : FsState) (content : Str) (now : Int) : Except FsErr FsState :=
  match checkStale st true with
  | .error e => .error e
  | .ok _ => .ok { file := some ⟨content, now⟩, tracked := some now }

/-- `editProjectFile` on a validated path: staleness gate without the
new-file exemption, then the unique-occurrence find/replace. -/
def editProjectFile (st : FsState) (oldS newS : Str) (now : Int) : Except FsErr FsState :=
  match checkStale st false with
  | .error e => .error e
  | .ok _ =>
    match st.file with
    | none => .error .notFound
    | some f =>
      let occs := stringsCount f.content oldS
      if occs = 0 then .error .editNotFound
      else if occs > 1 then .error (.editAmbiguous occs)
      else .ok { file := some ⟨stringsReplace1 f.content oldS newS, now⟩, tracked := some now }

/-! ### Reading (`readProjectFile`) -/

/-- Attributes of an on-disk file as seen by `readProjectFile`: `content`
is the decoded rune sequence (meaningful when `utf8Valid`); `size` the
byte size reported by stat; `regular` whether stat reports a regular
file; `mtime` the modification time in integer seconds. -/
structure DiskFile where
  content : Str
  size : Nat
  utf8Valid : Bool
  regular : Bool
  mtime : Int

/-- Outcome of a read: a recoverable error, a Go runtime panic, or the
returned text. -/
inductive ReadResult where
  | errNotFound : ReadResult
  | errTooLarge : ReadResult
  | errNotRegular : ReadResult
  | errNotUtf8 : ReadResult
  | runtimePanic : ReadResult
  | ok : Str → ReadResult
deriving DecidableEq

/-- Go slice expression `l[lo:hi]`: defined when `0 ≤ lo ≤ hi ≤ len(l)`,
otherwise a runtime panic, modelled as `none`. -/
def goSlice {α : Type} (l : List α) (lo hi : Int) : Option (List α) :=
  if 0 ≤ lo ∧ lo ≤ hi ∧ hi ≤ (l.length : Int) then
    some ((l.drop lo.toNat).take (hi - lo).toNat)
  else none

/-- The read size ceiling (256 KiB). -/
def maxFileSize : Nat := 262144

/-- `readProjectFile` on a validated path, returning the outcome and the
timestamp recorded into the `readTimestamps` table (none when no record
was made).  The slicing block runs when `lineOffset > 0 || count > 0`,
exactly as in the source. -/
def readProjectFile (file : Option DiskFile) (lineOffset count : Int) :
    ReadResult × Option Int :=
  match file with
  | none => (.errNotFound, none)
  | some f =>
    if f.size > maxFileSize then (.errTooLarge, none)
    else if !f.regular then (.errNotRegular, none)
    else if !f.utf8Valid then (.errNotUtf8, none)
    else
      let recorded := some f.mtime
      if lineOffset > 0 ∨ count > 0 then
        let lines := f.content.splitOn '\n'
        if lineOffset ≥ (lines.length : Int) then (.ok [], recorded)
        else
          let endIndex : Int :=
            if count > 0 ∧ lineOffset + count < (lines.length : Int) then lineOffset + count
            else (lines.length : Int)
          match goSlice lines lineOffset endIndex with
          | none => (.runtimePanic, recorded)
          | some sl => (.ok (List.intercalate ['\n'] sl), recorded)
      else (.ok f.content, recorded)

/-- Modelled from the spec (§4.4 read, amended): the requested line slice.
Non-positive `lineOffset` and `count` yield the full content; otherwise
the content is split on newlines, an offset at or beyond the line count
yields empty, and the slice ends at `lineOffset + count` clamped to the
line count when `count > 0` and at the line count otherwise. -/
def specLineSlice (content : Str) (lineOffset count : Int) : Str :=
  if lineOffset ≤ 0 ∧ count ≤ 0 then content
  else
    let lines := content.splitOn '\n'
    if lineOffset ≥ (lines.length : Int) then []
    else
      let stop : Nat := if 0 < count then min (lineOffset + count).toNat lines.length else lines.length
      List.intercalate ['\n'] ((lines.drop lineOffset.toNat).take (stop - lineOffset.toNat))

/-! ### Ignore-line translation (`gitignoreToGlob`) -/

/-- `gitignoreToGlob` (filesystem.go): translate one ignore-file line into
a glob pattern (empty result means the line produces no pattern).  Brace
characters are written with hex escapes. -/
def gitignoreToGlob (pattern : Str) : Str :=
  if strStarts pattern ['!'] then []
  else if strStarts pattern ['/'] then
    let p := pattern.drop 1
    if strEnds p ['/'] then p ++ ['*', '*'] else p
  else if strEnds pattern ['/'] then
    '\x7b' :: (pattern ++ ['*', '*', ','] ++ ['*', '*', '/'] ++ pattern ++ ['*', '*', '\x7d'])
  else if strContains pattern ['*', '*'] then pattern
  else '\x7b' :: (pattern ++ [','] ++ ['*', '*', '/'] ++ pattern ++ ['\x7d'])

/-! ### Listing glob filters (`compileGlobMatchers`, `matchesGlobPattern`,
`shouldIncludeFile`) -/

/-- gobwas `glob.Compile`, abstracted: a compiler either fails (`none`) or
yields a matcher on relative paths. -/
abbrev GlobCompiler := Str → Option (Str → Bool)

/-- `compileGlobMatchers`: no matchers for an empty pattern; a failed
compile is a hard error; a pattern with recursive head also compiles the
`**/`-stripped alternative (its compile failure is ignored). -/
def compileGlobMatchers (compile : GlobCompiler) (globPattern : Str) :
    Except Unit (Option (Str → Bool) × Option (Str → Bool)) :=
  if globPattern = [] then .ok (none, none)
  else
    match compile globPattern with
    | none => .error ()
    | some gm =>
      let am := if strStarts globPattern ['*', '*', '/'] then compile (globPattern.drop 3) else none
      .ok (some gm, am)

/-- `matchesGlobPattern`: primary matcher, then the alternative matcher,
then suppression of nested paths for separator-free patterns. -/
def matchesGlobPattern (gm : Str → Bool) (am : Option (Str → Bool))
    (globPattern relPath : Str) : Bool :=
  let m1 := gm relPath
  let m2 := if !m1 then (match am with | some a => a relPath | none => m1) else m1
  if m2 && !strContains globPattern ['*', '*', '/'] && !strContains globPattern ['/']
      && strContains relPath ['/'] then false
  else m2

/-- `shouldIncludeFile`: glob filter (when present) then ignore patterns
(unless `includeIgnored`). -/
def shouldIncludeFile (gm am : Option (Str → Bool)) (globPattern relPath : Str)
    (ignorePatterns : List (Str → Bool)) (includeIgnored : Bool) : Bool :=
  if (match gm with | some g => !matchesGlobPattern g am globPattern relPath | none => false) then
    false
  else if !includeIgnored && ignorePatterns.any (fun p => p relPath) then false
  else true

/-! ### Grep (`setupGrepSearch`, `shouldSearchFile`, `searchInFile`,
`grepProjectFiles`) -/

/-- The parts of `grepSearchContext` the filtering and limiting logic
uses. -/
structure GrepSearchCtx where
  globMatcher : Option (Str → Bool)
  ignorePatterns : List (Str → Bool)

/-- `setupGrepSearch`: a supplied glob is compiled (failure is a hard
error) and the ignore set stays empty; with no glob the root's ignore
patterns are loaded. -/
def setupGrepSearch (compile : GlobCompiler) (rootIgnore : List (Str → Bool))
    (globPattern : Str) : Except Unit GrepSearchCtx :=
  if globPattern = [] then .ok ⟨none, rootIgnore⟩
  else
    match compile globPattern with
    | none => .error ()
    | some g => .ok ⟨some g, []⟩

/-- `shouldSearchFile`: glob filter when present; ignore patterns only
when no glob was supplied. -/
def shouldSearchFile (ctx : GrepSearchCtx) (globPattern relPath : Str) : Bool :=
  if (match ctx.globMatcher with | some g => !g relPath | none => false) then false
  else if globPattern == [] && ctx.ignorePatterns.any (fun p => p relPath) then false
  else true

/-- A single grep hit: relative path, 1-based line number, line content. -/
structure GrepResult where
  path : Str
  line : Nat
  content : Str
deriving DecidableEq

/-- Line truncation to 200 characters with an ellipsis. -/
def truncate200 (line : Str) : Str :=
  if line.length > 200 then line.take 200 ++ ['.', '.', '.'] else line

/-- The per-file scan loop of `searchInFile`: `collected` is the length of
the file-local results slice, checked against `maxResults` before each
line. -/
def searchLines (matchLine : Str → Bool) (maxResults : Int) (relPath : Str) :
    List Str → Nat → Nat → List GrepResult
  | [], _, _ => []
  | line :: rest, lineNum, collected =>
    if (collected : Int) ≥ maxResults then []
    else if matchLine line then
      ⟨relPath, lineNum + 1, truncate200 line⟩ ::
        searchLines matchLine maxResults relPath rest (lineNum + 1) (collected + 1)
    else searchLines matchLine maxResults relPath rest (lineNum + 1) collected

/-- A file as seen by the grep walk: its root-relative path, its lines,
and whether it is readable valid UTF-8 (otherwise `searchInFile` skips
it). -/
structure GFile where
  relPath : Str
  lines : List Str
  readable : Bool

/-- `searchInFile`: skip unreadable or non-UTF-8 files, then scan lines
with the file-local limit. -/
def searchInFile (matchLine : Str → Bool) (maxResults : Int) (f : GFile) : List GrepResult :=
  if !f.readable then [] else searchLines matchLine maxResults f.relPath f.lines 0 0

/-- The walk loop of `grepProjectFiles`: each callback first compares the
accumulated result count against `maxResults` and skips the file once the
limit is reached. -/
def grepWalk (shouldSearch : Str → Bool) (matchLine : Str → Bool) (maxResults : Int) :
    List GFile → List GrepResult → List GrepResult
  | [], results => results
  | f :: rest, results =>
    if (results.length : Int) ≥ maxResults then grepWalk shouldSearch matchLine maxResults rest results
    else if shouldSearch f.relPath then
      grepWalk shouldSearch matchLine maxResults rest (results ++ searchInFile matchLine maxResults f)
    else grepWalk shouldSearch matchLine maxResults rest results

/-- `grepProjectFiles` over the files of the walk, in walk order. -/
def grepProjectFiles (shouldSearch matchLine : Str → Bool) (maxResults : Int)
    (files : List GFile) : List GrepResult :=
  grepWalk shouldSearch matchLine maxResults files []

/-! ## Helper lemmas -/

/-- Appending the separator to both sides turns the Go prefix test into
root-equality or root-with-separator prefixing. -/
theorem concat_prefix_concat_iff (a r : List Char) (c : Char) :
    (r ++ [c]) <+: (a ++ [c]) ↔ a = r ∨ (r ++ [c]) <+: a := by
  constructor
  · intro h
    have hlen : r.length + 1 ≤ a.length + 1 := by simpa using h.length_le
    rcases Nat.lt_or_ge r.length a.length with hlt | hge
    · right
      have he := List.prefix_iff_eq_take.mp h
      have hle : (r ++ [c]).length ≤ a.length := by simp; omega
      rw [ List.take_append_of_le_length hle] at he
      rw [he]
      exact List.take_prefix _ _
    · left
      have heq : r.length = a.length := by omega
      have hfull : r ++ [c] = a ++ [c] :=
        List.IsPrefix.eq_of_length h (by simp [heq])
      exact ((List.append_inj hfull heq).1).symm
  · rintro (rfl | h)
    · exact List.prefix_refl _
    · exact h.trans (List.prefix_append a [c])

/-- For a non-empty pattern whose non-overlapping count is one, the content
splits around the leftmost occurrence and `replaceFirstNE` substitutes
exactly there. -/
theorem countNE_one_replace (newS : Str) :
    ∀ s old : Str, old ≠ [] → countNE s old = 1 →
      ∃ a b, s = a ++ old ++ b ∧ replaceFirstNE s old newS = a ++ newS ++ b := by
  intro s
  induction s with
  | nil =>
    intro old h0 h1
    simp [countNE] at h1
  | cons c cs ih =>
    intro old h0 h1
    by_cases hp : old.isPrefixOf (c :: cs) = true
    · obtain ⟨t, ht⟩ := List.isPrefixOf_iff_prefix.mp hp
      rcases old with _ | ⟨o, os⟩
      · exact absurd rfl h0
      · rw [List.cons_append] at ht
        injection ht with hco hcs
        subst hco
        subst hcs
        refine ⟨[], t, by simp, ?_⟩
        simp [replaceFirstNE, hp, List.drop_left]
    · have h1' : countNE cs old = 1 := by
        rw [countNE, if_neg hp] at h1
        exact h1
      obtain ⟨a, b, hab, hrep⟩ := ih old h0 h1'
      refine ⟨c :: a, b, by simp [hab], ?_⟩
      simp [replaceFirstNE, hp, hrep]

end Dizi

namespace Dizi

/-! ## Claim theorems -/

/-- **C1**: for every working directory, sandbox root and input path,
`validatePath` succeeds exactly when the cleaned absolute form of the
input equals the absolute root or has the absolute root followed by the
path separator as a prefix, returning that cleaned absolute form; every
other path is rejected with the sandbox error — in particular `../x` from
inside the root and the sibling directory `/a/root2` of root `/a/root`. -/
theorem validatePath_sandbox_containment :
    (∀ wd root p : Str,
      validatePath wd root p =
        (if absPath wd (clean p) = absPath wd root
            ∨ (absPath wd root ++ ['/']) <+: absPath wd (clean p)
         then .ok (absPath wd (clean p))
         else .error .outsideRoot)) ∧
    validatePath (strL "/a/root") (strL "/a/root") (strL "../x") = .error .outsideRoot ∧
    validatePath (strL "/a/root") (strL "/a/root") (strL "/a/root2") = .error .outsideRoot ∧
    validatePath (strL "/a/root") (strL "/a/root") (strL "sub/f.txt") =
      .ok (strL "/a/root/sub/f.txt") := by
  refine ⟨?_, rfl, rfl, rfl⟩
  intro wd root p
  have key : (strStarts (absPath wd (clean p) ++ ['/']) (absPath wd root ++ ['/'])
        || (absPath wd (clean p) == absPath wd root)) = true ↔
      (absPath wd (clean p) = absPath wd root
        ∨ (absPath wd root ++ ['/']) <+: absPath wd (clean p)) := by
    simp only [strStarts, Bool.or_eq_true, List.isPrefixOf_iff_prefix, beq_iff_eq,
      concat_prefix_concat_iff]
    tauto
  simp only [validatePath]
  by_cases h : absPath wd (clean p) = absPath wd root
      ∨ (absPath wd root ++ ['/']) <+: absPath wd (clean p)
  · rw [if_pos (key.mpr h), if_pos h]
  · rw [if_neg (fun hb => h (key.mp hb)), if_neg h]

/-- **C2**: write fails with the not-tracked error on an existing untracked
file, succeeds on a nonexistent target regardless of tracking, and fails
with the stale error when the on-disk modification time strictly exceeds
the tracked timestamp; edit applies the same gate without the new-file
exemption (a nonexistent or never-read file always fails); after a
successful write or edit the tracked timestamp equals the file's new
modification time. -/
theorem write_edit_staleness_gate (c oldS newS : Str) (now t : Int) (f : PFile)
    (tr : Option Int) :
    (writeProjectFile ⟨some f, none⟩ c now = .error .notTracked) ∧
    (writeProjectFile ⟨none, tr⟩ c now = .ok ⟨some ⟨c, now⟩, some now⟩) ∧
    (f.mtime > t → writeProjectFile ⟨some f, some t⟩ c now = .error .stale) ∧
    (editProjectFile ⟨none, tr⟩ oldS newS now = .error .notFound) ∧
    (editProjectFile ⟨some f, none⟩ oldS newS now = .error .notTracked) ∧
    (f.mtime > t → editProjectFile ⟨some f, some t⟩ oldS newS now = .error .stale) ∧
    (∀ st st', writeProjectFile st c now = .ok st' →
      st'.tracked = some now ∧ ∃ pf, st'.file = some pf ∧ pf.mtime = now) ∧
    (∀ st st', editProjectFile st oldS newS now = .ok st' →
      st'.tracked = some now ∧ ∃ pf, st'.file = some pf ∧ pf.mtime = now) := by
  refine ⟨rfl, rfl, ?_, rfl, rfl, ?_, ?_, ?_⟩
  · intro h
    simp [writeProjectFile, checkStale, if_pos h]
  · intro h
    simp [editProjectFile, checkStale, if_pos h]
  · intro st st' h
    unfold writeProjectFile at h
    rcases hck : checkStale st true with e | u <;> rw [hck] at h
    · simp at h
    · simp only [Except.ok.injEq] at h
      subst h
      exact ⟨rfl, ⟨c, now⟩, rfl, rfl⟩
  · intro st st' h
    unfold editProjectFile at h
    rcases hck : checkStale st false with e | u <;> rw [hck] at h
    · simp at h
    · rcases hf : st.file with _ | f2 <;> rw [hf] at h
      · simp at h
      · by_cases h0 : stringsCount f2.content oldS = 0
        · simp [h0] at h
        · by_cases h1 : stringsCount f2.content oldS > 1
          · simp [h0, h1] at h
          · simp only [h0, h1, if_neg, if_false, Except.ok.injEq] at h
            subst h
            exact ⟨rfl, ⟨stringsReplace1 f2.content oldS newS, now⟩, rfl, rfl⟩

/-- Witness for C2 at concrete states: stale write, new-file write, edit on
a missing file, and a successful write's timestamp update. -/
theorem write_edit_staleness_gate_witness :
    ((5 : Int) > 3 ∧
      writeProjectFile ⟨some ⟨strL "x", 5⟩, some 3⟩ (strL "y") 7 = .error .stale) ∧
    writeProjectFile ⟨none, none⟩ (strL "y") 7 = .ok ⟨some ⟨strL "y", 7⟩, some 7⟩ ∧
    editProjectFile ⟨none, some 3⟩ (strL "a") (strL "b") 7 = .error .notFound ∧
    (FsState.tracked ⟨some ⟨strL "y", 7⟩, some 7⟩ = some 7 ∧
      ∃ pf, FsState.file ⟨some ⟨strL "y", 7⟩, some 7⟩ = some pf ∧ pf.mtime = 7) := by
  refine ⟨⟨by decide, ?_⟩, ?_, ?_, ?_⟩
  · exact (write_edit_staleness_gate (strL "y") (strL "a") (strL "b") 7 3 ⟨strL "x", 5⟩
      none).2.2.1 (by decide)
  · exact (write_edit_staleness_gate (strL "y") (strL "a") (strL "b") 7 3 ⟨strL "x", 5⟩
      none).2.1
  · exact (write_edit_staleness_gate (strL "y") (strL "a") (strL "b") 7 3 ⟨strL "x", 5⟩
      (some 3)).2.2.2.1
  · exact (write_edit_staleness_gate (strL "y") (strL "a") (strL "b") 7 3 ⟨strL "x", 5⟩
      none).2.2.2.2.2.2.1 ⟨none, none⟩ ⟨some ⟨strL "y", 7⟩, some 7⟩ rfl

end Dizi

namespace Dizi

/-- **C3**: with a fresh tracked file, edit fails with the not-found error
when the search string occurs zero times and with the ambiguous error
(reporting the count N) when it occurs more than once, writing nothing;
when it occurs exactly once the content decomposes as `a ++ old ++ b`, the
result written back is `a ++ new ++ b`, and the tracked timestamp is
updated to the new modification time. -/
theorem edit_single_substitution (f : PFile) (t now : Int) (oldS newS : Str)
    (hfresh : ¬ f.mtime > t) :
    (stringsCount f.content oldS = 0 →
      editProjectFile ⟨some f, some t⟩ oldS newS now = .error .editNotFound) ∧
    (∀ n, stringsCount f.content oldS = n → 1 < n →
      editProjectFile ⟨some f, some t⟩ oldS newS now = .error (.editAmbiguous n)) ∧
    (stringsCount f.content oldS = 1 →
      ∃ a b, f.content = a ++ oldS ++ b ∧
        editProjectFile ⟨some f, some t⟩ oldS newS now =
          .ok ⟨some ⟨a ++ newS ++ b, now⟩, some now⟩) := by
  have hck : checkStale ⟨some f, some t⟩ false = .ok () := by
    simp [checkStale, hfresh]
  refine ⟨?_, ?_, ?_⟩
  · intro h0
    simp [editProjectFile, hck, h0]
  · intro n hn hgt
    have h0 : n ≠ 0 := by omega
    simp [editProjectFile, hck, hn, h0, hgt]
  · intro h1
    by_cases hold : oldS = []
    · subst hold
      have hnil : f.content = [] := by
        simpa [stringsCount] using h1
      refine ⟨[], [], by simp [hnil], ?_⟩
      by_cases hne : ([] : Str) = newS
      · simp [editProjectFile, hck, stringsCount, hnil, stringsReplace1, ← hne]
      · simp [editProjectFile, hck, stringsCount, hnil, stringsReplace1, hne]
    · obtain ⟨a, b, hab, hrep⟩ := countNE_one_replace newS f.content oldS hold
        (by simpa [stringsCount, hold] using h1)
      refine ⟨a, b, hab, ?_⟩
      have hrepl : stringsReplace1 f.content oldS newS = a ++ newS ++ b := by
        by_cases he : oldS = newS
        · subst he
          simp [stringsReplace1, hab]
        · simp [stringsReplace1, he, hold, hrep]
      simp [editProjectFile, hck, h1, hrepl]

/-- Witness for C3 at concrete files: zero occurrences, two occurrences,
and a unique occurrence with its substitution. -/
theorem edit_single_substitution_witness :
    editProjectFile ⟨some ⟨strL "xy", 0⟩, some 0⟩ (strL "a") (strL "b") 7 =
      .error .editNotFound ∧
    editProjectFile ⟨some ⟨strL "xaxa", 0⟩, some 0⟩ (strL "a") (strL "b") 7 =
      .error (.editAmbiguous 2) ∧
    (∃ a b, strL "xay" = a ++ strL "a" ++ b ∧
      editProjectFile ⟨some ⟨strL "xay", 0⟩, some 0⟩ (strL "a") (strL "b") 7 =
        .ok ⟨some ⟨a ++ strL "b" ++ b, 7⟩, some 7⟩) := by
  refine ⟨?_, ?_, ?_⟩
  · exact (edit_single_substitution ⟨strL "xy", 0⟩ 0 7 (strL "a") (strL "b")
      (by decide)).1 (by simp [stringsCount, countNE, strL])
  · exact (edit_single_substitution ⟨strL "xaxa", 0⟩ 0 7 (strL "a") (strL "b")
      (by decide)).2.1 2 (by simp [stringsCount, countNE, strL]) (by decide)
  · exact (edit_single_substitution ⟨strL "xay", 0⟩ 0 7 (strL "a") (strL "b")
      (by decide)).2.2 (by simp [stringsCount, countNE, strL])

/-- **C10**: the edit uniqueness gate compares the number of non-overlapping
occurrences with one; "aa" occurs at two overlapping positions of "aaa"
yet counts once, so the edit passes the gate and replaces the leftmost
occurrence. -/
theorem edit_gate_nonoverlapping_count :
    (∀ (f : PFile) (t now : Int) (oldS newS : Str), ¬ f.mtime > t →
      ((∃ st', editProjectFile ⟨some f, some t⟩ oldS newS now = .ok st') ↔
        stringsCount f.content oldS = 1)) ∧
    stringsCount (strL "aaa") (strL "aa") = 1 ∧
    (occPositions (strL "aaa") (strL "aa")).length = 2 ∧
    editProjectFile ⟨some ⟨strL "aaa", 0⟩, some 0⟩ (strL "aa") (strL "b") 7 =
      .ok ⟨some ⟨strL "ba", 7⟩, some 7⟩ := by
  have hcount : stringsCount (strL "aaa") (strL "aa") = 1 := by
    simp [stringsCount, countNE, strL]
  refine ⟨?_, hcount, by decide, ?_⟩
  · intro f t now oldS newS hfresh
    have hck : checkStale ⟨some f, some t⟩ false = .ok () := by
      simp [checkStale, hfresh]
    constructor
    · rintro ⟨st', hst⟩
      by_cases h0 : stringsCount f.content oldS = 0
      · simp [editProjectFile, hck, h0] at hst
      · by_cases hgt : stringsCount f.content oldS > 1
        · simp [editProjectFile, hck, h0, hgt] at hst
        · omega
    · intro h1
      exact ⟨⟨some ⟨stringsReplace1 f.content oldS newS, now⟩, some now⟩,
        by simp [editProjectFile, hck, h1]⟩
  · have hck : checkStale ⟨some ⟨strL "aaa", 0⟩, some (0 : Int)⟩ false = .ok () := by
      simp [checkStale]
    have hrepl : stringsReplace1 (strL "aaa") (strL "aa") (strL "b") = strL "ba" := by
      decide
    simp [editProjectFile, hck, hcount, hrepl]

/-- Witness for C10's quantified gate equivalence at the "aaa"/"aa"
instance. -/
theorem edit_gate_nonoverlapping_count_witness :
    ∃ st', editProjectFile ⟨some ⟨strL "aaa", 0⟩, some 0⟩ (strL "aa") (strL "b") 7 =
      .ok st' := by
  refine (edit_gate_nonoverlapping_count.1 ⟨strL "aaa", 0⟩ 0 7 (strL "aa") (strL "b")
    (by decide)).mpr ?_
  simp [stringsCount, countNE, strL]

end Dizi

namespace Dizi

/-- **C4** (claim contradicted by the code): on an existing, regular,
readable UTF-8 three-line file, a read with `line_offset = -1` and
`count = 1` reaches the Go slice expression with a negative low bound —
a runtime panic that crashes the process (no recovery middleware is
installed), not a recoverable error result. -/
theorem read_negative_offset_panics :
    readProjectFile (some ⟨strL "a\nb\nc", 5, true, true, 0⟩) (-1) 1 =
      (.runtimePanic, some 0) := by
  decide

/-- **C9** counterexample: with `lineOffset = 1` and `count = 0` on a
three-line file, the code returns the last two lines, not the empty
result denoted by the claim's slice `[lineOffset, lineOffset + count)`. -/
theorem read_count_zero_counterexample :
    readProjectFile (some ⟨strL "a\nb\nc", 5, true, true, 0⟩) 1 0 =
      (.ok (strL "b\nc"), some 0) ∧ strL "b\nc" ≠ [] := by
  exact ⟨by decide, by decide⟩

/-- **C9 (amended)**: for non-negative offsets, read fails when the file is
missing, exceeds 262144 bytes, is not regular, or is not UTF-8; otherwise
it records the file's modification time and returns the slice in which a
non-positive count means "through the last line" (non-positive offset and
count together yield the full content).  Negative offsets with a positive
count are a hard fault instead (see the C4 theorem). -/
theorem read_spec_amended (f : DiskFile) (lineOffset count : Int)
    (hlo : 0 ≤ lineOffset) :
    readProjectFile none lineOffset count = (.errNotFound, none) ∧
    readProjectFile (some f) lineOffset count =
      (if f.size > maxFileSize then (.errTooLarge, none)
       else if !f.regular then (.errNotRegular, none)
       else if !f.utf8Valid then (.errNotUtf8, none)
       else (.ok (specLineSlice f.content lineOffset count), some f.mtime)) := by
  refine ⟨rfl, ?_⟩
  by_cases h1 : f.size > maxFileSize
  · simp [readProjectFile, h1]
  · by_cases h2 : f.regular = true
    · by_cases h3 : f.utf8Valid = true
      · simp only [readProjectFile, specLineSlice, h1, h2, h3, Bool.not_true,
          Bool.false_eq_true, if_false, ite_false, ite_true]
        by_cases hb : lineOffset > 0 ∨ count > 0
        · rw [if_pos hb]
          have hs : ¬(lineOffset ≤ 0 ∧ count ≤ 0) := by omega
          rw [if_neg hs]
          by_cases hge : lineOffset ≥ ((f.content.splitOn '\n').length : Int)
          · rw [if_pos hge, if_pos hge]
          · rw [if_neg hge, if_neg hge]
            have hcond : 0 ≤ lineOffset ∧
                lineOffset ≤ (if count > 0 ∧
                    lineOffset + count < ((f.content.splitOn '\n').length : Int) then
                  lineOffset + count else ((f.content.splitOn '\n').length : Int)) ∧
                (if count > 0 ∧
                    lineOffset + count < ((f.content.splitOn '\n').length : Int) then
                  lineOffset + count else ((f.content.splitOn '\n').length : Int)) ≤
                  ((f.content.splitOn '\n').length : Int) := by
              refine ⟨hlo, ?_, ?_⟩
              · by_cases hc : count > 0 ∧
                    lineOffset + count < ((f.content.splitOn '\n').length : Int)
                · rw [if_pos hc]; omega
                · rw [if_neg hc]; omega
              · by_cases hc : count > 0 ∧
                    lineOffset + count < ((f.content.splitOn '\n').length : Int)
                · rw [if_pos hc]; omega
                · rw [if_neg hc]
            simp only [goSlice, if_pos hcond]
            have hES : ((if count > 0 ∧
                  lineOffset + count < ((f.content.splitOn '\n').length : Int) then
                lineOffset + count else ((f.content.splitOn '\n').length : Int)) -
                  lineOffset).toNat =
                (if 0 < count then
                  min (lineOffset + count).toNat (f.content.splitOn '\n').length
                 else (f.content.splitOn '\n').length) - lineOffset.toNat := by
              by_cases hc : count > 0 ∧
                  lineOffset + count < ((f.content.splitOn '\n').length : Int)
              · rw [if_pos hc, if_pos hc.1]; omega
              · rw [if_neg hc]
                by_cases hcp : 0 < count
                · rw [if_pos hcp]; omega
                · rw [if_neg hcp]; omega
            rw [hES]
        · rw [if_neg hb]
          have hs : lineOffset ≤ 0 ∧ count ≤ 0 := by omega
          rw [if_pos hs]
      · simp [readProjectFile, h1, h2, h3]
    · simp [readProjectFile, h1, h2]

/-- Witness for C9 (amended) at a concrete file and slice. -/
theorem read_spec_amended_witness :
    readProjectFile none 1 1 = (.errNotFound, none) ∧
    readProjectFile (some ⟨strL "a\nb\nc", 5, true, true, 0⟩) 1 1 =
      (if (5 : Nat) > maxFileSize then (.errTooLarge, none)
       else if !true then (.errNotRegular, none)
       else if !true then (.errNotUtf8, none)
       else (.ok (specLineSlice (strL "a\nb\nc") 1 1), some 0)) :=
  read_spec_amended ⟨strL "a\nb\nc", 5, true, true, 0⟩ 1 1 (by decide)

end Dizi

namespace Dizi

/-- **C5**: the ignore-line translation — a `!`-prefixed line produces no
pattern; a `/`-anchored line is stripped of the leading separator and, if
it also ends with `/`, suffixed with the recursive `**` (matching the
directory and everything beneath it), else used verbatim; a non-anchored
line ending in `/` produces the brace alternation of `<name>/**` and
`**/<name>/**`; a line already containing `**` is used verbatim; any
other bare name produces the brace alternation of `<name>` and
`**/<name>`. -/
theorem gitignore_line_translation (pattern rest : Str) :
    (strStarts pattern ['!'] = true → gitignoreToGlob pattern = []) ∧
    (pattern = '/' :: rest →
      gitignoreToGlob pattern =
        (if strEnds rest ['/'] then rest ++ ['*', '*'] else rest)) ∧
    (strStarts pattern ['!'] = false → strStarts pattern ['/'] = false →
      strEnds pattern ['/'] = true →
      gitignoreToGlob pattern =
        '\x7b' :: (pattern ++ ['*', '*', ','] ++ ['*', '*', '/'] ++ pattern ++
          ['*', '*', '\x7d'])) ∧
    (strStarts pattern ['!'] = false → strStarts pattern ['/'] = false →
      strEnds pattern ['/'] = false → strContains pattern ['*', '*'] = true →
      gitignoreToGlob pattern = pattern) ∧
    (strStarts pattern ['!'] = false → strStarts pattern ['/'] = false →
      strEnds pattern ['/'] = false → strContains pattern ['*', '*'] = false →
      gitignoreToGlob pattern =
        '\x7b' :: (pattern ++ [','] ++ ['*', '*', '/'] ++ pattern ++ ['\x7d'])) := by
  refine ⟨?_, ?_, ?_, ?_, ?_⟩
  · intro hbang
    simp [gitignoreToGlob, hbang]
  · intro hp
    subst hp
    have hbang : strStarts ('/' :: rest) ['!'] = false := by
      simp [strStarts, List.isPrefixOf]
    have hslash : strStarts ('/' :: rest) ['/'] = true := by
      simp [strStarts, List.isPrefixOf]
    simp [gitignoreToGlob, hbang, hslash]
  · intro hbang hslash hdir
    simp [gitignoreToGlob, hbang, hslash, hdir]
  · intro hbang hslash hdir hstar
    simp [gitignoreToGlob, hbang, hslash, hdir, hstar]
  · intro hbang hslash hdir hstar
    simp [gitignoreToGlob, hbang, hslash, hdir, hstar]

/-- Witness for C5 on one concrete line of each shape. -/
theorem gitignore_line_translation_witness :
    gitignoreToGlob (strL "!keep.txt") = [] ∧
    gitignoreToGlob (strL "/build/") = strL "build/**" ∧
    gitignoreToGlob (strL "/file.txt") = strL "file.txt" ∧
    gitignoreToGlob (strL "vendor/") = strL "\x7bvendor/**,**/vendor/**\x7d" ∧
    gitignoreToGlob (strL "a**b") = strL "a**b" ∧
    gitignoreToGlob (strL "node") = strL "\x7bnode,**/node\x7d" := by
  refine ⟨?_, ?_, ?_, ?_, ?_, ?_⟩
  · exact (gitignore_line_translation (strL "!keep.txt") []).1 (by decide)
  · exact ((gitignore_line_translation (strL "/build/") (strL "build/")).2.1 rfl).trans
      (by decide)
  · exact ((gitignore_line_translation (strL "/file.txt") (strL "file.txt")).2.1 rfl).trans
      (by decide)
  · exact ((gitignore_line_translation (strL "vendor/") []).2.2.1 (by decide) (by decide)
      (by decide)).trans (by decide)
  · exact (gitignore_line_translation (strL "a**b") []).2.2.2.1 (by decide) (by decide)
      (by decide) (by decide)
  · exact ((gitignore_line_translation (strL "node") []).2.2.2.2 (by decide) (by decide)
      (by decide) (by decide)).trans (by decide)

/-- If `matchesGlobPattern` accepts, the primary matcher matched or the
alternative matcher exists and matched. -/
theorem matchesGlob_true_cases (gm : Str → Bool) (am : Option (Str → Bool)) (gp rp : Str)
    (h : matchesGlobPattern gm am gp rp = true) :
    gm rp = true ∨ ∃ a, am = some a ∧ a rp = true := by
  cases hm1 : gm rp with
  | true => exact Or.inl rfl
  | false =>
    right
    rcases am with _ | a
    · exfalso
      simp [matchesGlobPattern, hm1] at h
    · refine ⟨a, rfl, ?_⟩
      by_contra har
      simp only [Bool.not_eq_true] at har
      simp [matchesGlobPattern, hm1, har] at h

/-- A separator-free pattern without a recursive segment never matches a
nested relative path. -/
theorem matchesGlob_rootonly (gm : Str → Bool) (am : Option (Str → Bool)) (gp rp : Str)
    (hrec : strContains gp ['*', '*', '/'] = false) (hsep : strContains gp ['/'] = false)
    (hrel : strContains rp ['/'] = true) :
    matchesGlobPattern gm am gp rp = false := by
  cases hm1 : gm rp with
  | true => simp [matchesGlobPattern, hm1, hrec, hsep, hrel]
  | false =>
    rcases am with _ | a
    · simp [matchesGlobPattern, hm1, hrec, hsep, hrel]
    · cases ha : a rp with
      | true => simp [matchesGlobPattern, hm1, ha, hrec, hsep, hrel]
      | false => simp [matchesGlobPattern, hm1, ha, hrec, hsep, hrel]

/-- **C6**: a file passes the listing's glob filter only if the compiled
pattern matches its relative path or, when the pattern begins with `**/`,
the matcher compiled from the stripped pattern matches; and a pattern
containing neither a `**/` segment nor a separator never admits a file
whose relative path contains a separator (root-level-only semantics). -/
theorem list_glob_filtering (compile : GlobCompiler) (globPattern relPath : Str)
    (gm : Str → Bool) (am : Option (Str → Bool)) (ign : List (Str → Bool)) (inc : Bool)
    (hc : compileGlobMatchers compile globPattern = .ok (some gm, am)) :
    (shouldIncludeFile (some gm) am globPattern relPath ign inc = true →
      gm relPath = true ∨
        (strStarts globPattern ['*', '*', '/'] = true ∧
          ∃ falt, compile (globPattern.drop 3) = some falt ∧ falt relPath = true)) ∧
    (strContains globPattern ['*', '*', '/'] = false →
      strContains globPattern ['/'] = false →
      strContains relPath ['/'] = true →
      shouldIncludeFile (some gm) am globPattern relPath ign inc = false) := by
  have ham : am = (if strStarts globPattern ['*', '*', '/'] then compile (globPattern.drop 3)
      else none) := by
    by_cases hgp : globPattern = []
    · rw [compileGlobMatchers, if_pos hgp] at hc
      simp at hc
    · rw [compileGlobMatchers, if_neg hgp] at hc
      rcases hcc : compile globPattern with _ | g <;> rw [hcc] at hc
      · simp at hc
      · simp only [Except.ok.injEq, Prod.mk.injEq] at hc
        exact hc.2.symm
  constructor
  · intro hinc
    have hmg : matchesGlobPattern gm am globPattern relPath = true := by
      by_contra hng
      simp only [Bool.not_eq_true] at hng
      simp [shouldIncludeFile, hng] at hinc
    rcases matchesGlob_true_cases gm am globPattern relPath hmg with hm1 | ⟨a, hams, hart⟩
    · exact Or.inl hm1
    · right
      rw [ham] at hams
      by_cases hstart : strStarts globPattern ['*', '*', '/'] = true
      · rw [if_pos hstart] at hams
        exact ⟨hstart, a, hams, hart⟩
      · simp only [Bool.not_eq_true] at hstart
        rw [hstart] at hams
        simp at hams
  · intro hrec hsep hrel
    simp [shouldIncludeFile,
      matchesGlob_rootonly gm am globPattern relPath hrec hsep hrel]

end Dizi

namespace Dizi

/-- Witness for C6: a matching root-level file passes, a nested file is
suppressed for the separator-free pattern `*.go`. -/
theorem list_glob_filtering_witness :
    ((fun (_ : Str) => true) (strL "main.go") = true ∨
      (strStarts (strL "*.go") ['*', '*', '/'] = true ∧
        ∃ falt, (fun (_ : Str) => some (fun (_ : Str) => true)) (List.drop 3 (strL "*.go")) =
            some falt ∧ falt (strL "main.go") = true)) ∧
    shouldIncludeFile (some (fun _ => true)) none (strL "*.go") (strL "src/utils.go") []
      true = false := by
  constructor
  · exact (list_glob_filtering (fun _ => some (fun _ => true)) (strL "*.go") (strL "main.go")
      (fun _ => true) none [] true rfl).1 (by decide)
  · exact (list_glob_filtering (fun _ => some (fun _ => true)) (strL "*.go")
      (strL "src/utils.go") (fun _ => true) none [] true rfl).2 (by decide) (by decide)
      (by decide)

/-- Boolean de Morgan over a pattern list. -/
theorem all_not_eq_not_any (l : List (Str → Bool)) (rp : Str) :
    l.all (fun p => !p rp) = !l.any (fun p => p rp) := by
  induction l with
  | nil => rfl
  | cons p rest ih => simp [List.all_cons, List.any_cons, ih]

/-- **C7**: when a glob is supplied, a file is searched exactly when the
compiled glob matches its relative path, and the ignore patterns are not
consulted at all (the context carries none); when the glob is omitted, a
file is searched exactly when no ignore pattern of the root matches. -/
theorem grep_glob_overrides_ignore (compile : GlobCompiler)
    (rootIgnore : List (Str → Bool)) (globPattern relPath : Str) (ctx : GrepSearchCtx)
    (hs : setupGrepSearch compile rootIgnore globPattern = .ok ctx) :
    (∀ g, globPattern ≠ [] → compile globPattern = some g →
      shouldSearchFile ctx globPattern relPath = g relPath ∧ ctx.ignorePatterns = []) ∧
    (globPattern = [] →
      shouldSearchFile ctx globPattern relPath =
        rootIgnore.all (fun p => !p relPath)) := by
  constructor
  · intro g hne hcg
    rw [setupGrepSearch, if_neg hne, hcg] at hs
    simp only [Except.ok.injEq] at hs
    subst hs
    refine ⟨?_, rfl⟩
    have hbe : (globPattern == ([] : Str)) = false := by
      simpa using hne
    cases hg : g relPath with
    | true => simp [shouldSearchFile, hg, hbe]
    | false => simp [shouldSearchFile, hg]
  · intro hemp
    subst hemp
    rw [setupGrepSearch, if_pos rfl] at hs
    simp only [Except.ok.injEq] at hs
    subst hs
    rw [all_not_eq_not_any]
    cases hany : rootIgnore.any (fun p => p relPath) with
    | true => simp [shouldSearchFile, hany]
    | false => simp [shouldSearchFile, hany]

/-- Witness for C7: an everything-excluding ignore list is overridden by an
explicit glob, and is applied when the glob is omitted. -/
theorem grep_glob_overrides_ignore_witness :
    (shouldSearchFile ⟨some (fun _ => true), []⟩ (strL "*.go") (strL "build/x.go") =
        (fun (_ : Str) => true) (strL "build/x.go") ∧
      GrepSearchCtx.ignorePatterns ⟨some (fun _ => true), []⟩ = []) ∧
    shouldSearchFile ⟨none, [fun _ => true]⟩ [] (strL "a.txt") =
      List.all [fun _ => true] (fun p => !p (strL "a.txt")) := by
  constructor
  · exact (grep_glob_overrides_ignore (fun _ => some (fun _ => true)) [fun _ => true]
      (strL "*.go") (strL "build/x.go") ⟨some (fun _ => true), []⟩ rfl).1
      (fun _ => true) (by decide) rfl
  · exact (grep_glob_overrides_ignore (fun _ => some (fun _ => true)) [fun _ => true]
      [] (strL "a.txt") ⟨none, [fun _ => true]⟩ rfl).2 rfl

end Dizi

namespace Dizi

/-- Each searched file contributes at most `max (maxResults - collected) 0`
further results: the per-line check compares only the file-local count. -/
theorem searchLines_length_le (ml : Str → Bool) (mx : Int) (rp : Str) :
    ∀ (lines : List Str) (ln c : Nat),
      ((searchLines ml mx rp lines ln c).length : Int) ≤ max (mx - c) 0 := by
  intro lines
  induction lines with
  | nil =>
    intro ln c
    simp [searchLines]
  | cons line rest ih =>
    intro ln c
    simp only [searchLines]
    by_cases hge : ((c : Int) ≥ mx)
    · rw [if_pos hge]
      simp
    · rw [if_neg hge]
      by_cases hm : ml line = true
      · rw [if_pos hm]
        have hr := ih (ln + 1) (c + 1)
        simp only [List.length_cons]
        push_cast at hr ⊢
        omega
      · rw [if_neg hm]
        exact ih (ln + 1) c

/-- One file's results never exceed `max maxResults 0`. -/
theorem searchInFile_length_le (ml : Str → Bool) (mx : Int) (f : GFile) :
    ((searchInFile ml mx f).length : Int) ≤ max mx 0 := by
  rw [searchInFile]
  by_cases hr : (!f.readable) = true
  · rw [if_pos hr]
    simp
  · rw [if_neg hr]
    simpa using searchLines_length_le ml mx f.relPath f.lines 0 0

/-- Walk invariant: once the accumulated results respect the doubled bound,
they keep respecting it — a file is only searched below `maxResults` and
adds at most `maxResults` more. -/
theorem grepWalk_length_le (ss ml : Str → Bool) (mx : Int) (hmx : 1 ≤ mx) :
    ∀ (files : List GFile) (results : List GrepResult),
      ((results.length : Int) ≤ 2 * mx - 1) →
      (((grepWalk ss ml mx files results).length : Int) ≤ 2 * mx - 1) := by
  intro files
  induction files with
  | nil =>
    intro results h
    simpa [grepWalk] using h
  | cons f rest ih =>
    intro results h
    simp only [grepWalk]
    by_cases hge : ((results.length : Int) ≥ mx)
    · rw [if_pos hge]
      exact ih results h
    · rw [if_neg hge]
      by_cases hss : ss f.relPath = true
      · rw [if_pos hss]
        refine ih _ ?_
        have h1 := searchInFile_length_le ml mx f
        simp only [List.length_append]
        push_cast at h1 ⊢
        omega
      · rw [if_neg hss]
        exact ih results h

/-- **C8** counterexample: with `maxResults = 2`, a first file holding one
matching line followed by a second holding two yields three results in
total — the walk still admits the second file (only one result collected
so far) and the file-local limit lets it contribute two more. -/
theorem grep_limit_counterexample :
    (grepProjectFiles (fun _ => true) (fun _ => true) 2
        [⟨strL "f1", [strL "m"], true⟩, ⟨strL "f2", [strL "m", strL "m"], true⟩]).length =
      3 ∧
    ¬ ((grepProjectFiles (fun _ => true) (fun _ => true) 2
        [⟨strL "f1", [strL "m"], true⟩, ⟨strL "f2", [strL "m", strL "m"], true⟩]).length ≤
        2) := by
  exact ⟨by decide, by decide⟩

/-- **C8 (amended)**: a file is searched only while fewer than `maxResults`
results have been collected and each file contributes at most `maxResults`
results, so the total result count is at most `2 * maxResults - 1`;
scanning across files stops once the total reaches `maxResults`. -/
theorem grep_total_results_bound (ss ml : Str → Bool) (mx : Int) (files : List GFile)
    (hmx : 1 ≤ mx) :
    ((grepProjectFiles ss ml mx files).length : Int) ≤ 2 * mx - 1 := by
  refine grepWalk_length_le ss ml mx hmx files [] ?_
  simp
  omega

/-- Witness for C8 (amended) at the counterexample scenario. -/
theorem grep_total_results_bound_witness :
    (1 : Int) ≤ 2 ∧
    (((grepProjectFiles (fun _ => true) (fun _ => true) 2
        [⟨strL "f1", [strL "m"], true⟩,
         ⟨strL "f2", [strL "m", strL "m"], true⟩]).length : Int) ≤ 2 * 2 - 1) :=
  ⟨by decide, grep_total_results_bound (fun _ => true) (fun _ => true) 2
    [⟨strL "f1", [strL "m"], true⟩, ⟨strL "f2", [strL "m", strL "m"], true⟩] (by decide)⟩

end Dizi
